import Mathlib

/-!
Verification of the batch job runner of `voice_prompt_cleanup_gui.py`.

The worker thread `ProcessingWorker.run` is embedded as a pure function from
an environment (the behaviour of the external subprocess, keyed by the exact
argument vector it is invoked with) and a cancellation observation function
(the value of the `_cancelled` flag read at the top of each loop iteration)
to the ordered list of Qt signals it emits, together with the final
`successful`/`failed` counters.  The queue operations `add_files` and
`remove_selected` of `MainWindow` are embedded as list folds, and the
pre-run validation of `start_processing` as a function of the relevant
filesystem facts.
-/

/-- An input file path, split the way Python `pathlib` sees it: parent
directory, stem, and final suffix.  `path.name = stem ++ ext` and
`str(path) = dir ++ "/" ++ stem ++ ext`. -/
structure InputFile where
  dir : String
  stem : String
  ext : String
  deriving DecidableEq, Repr

/-- Python `input_file.name`: the stem followed by the suffix. -/
def fileName (f : InputFile) : String := f.stem ++ f.ext

/-- Python `str(input_file)`: the full path text. -/
def inputPathStr (f : InputFile) : String := f.dir ++ "/" ++ (f.stem ++ f.ext)

/-- Output path computation, lines 102-107 of the source: the output name is
the stem followed by `_processed.mp3`, placed in `self.output_folder` when
that is set, else in `input_file.parent`. -/
def outputPathStr (output_folder : Option String) (input_file : InputFile) : String :=
  let output_name := input_file.stem ++ "_processed.mp3"
  match output_folder with
  | some folder => folder ++ "/" ++ output_name
  | none => input_file.dir ++ "/" ++ output_name

/-- The spec's own wording for the output path (section 4.2 step b):
the input's stem concatenated with `_processed.mp3`, in the configured
output directory, or in the input file's own directory when none is
configured.  Kept separate from `outputPathStr` for the refinement check. -/
def specOutputPath (output_folder : Option String) (input_file : InputFile) : String :=
  (output_folder.getD input_file.dir) ++ "/" ++ (input_file.stem ++ "_processed.mp3")

/-- What the external process would do if invoked: whether the call itself
raises an unexpected exception, how many seconds the process runs, and its
exit code and captured streams if it completes. -/
structure ProcBehavior where
  raises : Option String
  duration : Nat
  exitCode : Int
  stdoutText : String
  stderrText : String
  deriving DecidableEq, Repr

/-- Result of `subprocess.run(..., capture_output=True, text=True, timeout=...)`:
either the completed process, a `TimeoutExpired` exception, or some other
exception raised by the invocation. -/
inductive ProcResult where
  | completed (returncode : Int) (stdoutText stderrText : String)
  | timedOut
  | raised (message : String)
  deriving DecidableEq, Repr

/-- Semantics of `subprocess.run` with a timeout: an unexpected fault
propagates; otherwise a process running longer than `timeout` seconds
raises `TimeoutExpired` (its exit code is never observed); otherwise the
completed process is returned. -/
def subprocessRun (b : ProcBehavior) (timeout : Nat) : ProcResult :=
  match b.raises with
  | some m => .raised m
  | none =>
    if b.duration > timeout then .timedOut
    else .completed b.exitCode b.stdoutText b.stderrText

/-- The spec's per-item Job Outcome classification (section 4.2 step e). -/
inductive Outcome where
  | success
  | failure (reason : String)
  | timedOut
  deriving DecidableEq, Repr

/-- Outcome classification as the code's branch structure performs it
(lines 114-139): exit 0 is success; a non-zero exit is a failure carrying
`result.stderr or "Unknown error"`; `TimeoutExpired` is the timeout
outcome; any other exception is a failure carrying its description. -/
def classify (b : ProcBehavior) : Outcome :=
  match subprocessRun b 600 with
  | .completed returncode _ err =>
    if returncode = 0 then .success
    else .failure (if err = "" then "Unknown error" else err)
  | .timedOut => .timedOut
  | .raised m => .failure m

/-- One emitted Qt signal of `ProcessingWorker`. -/
inductive Event where
  | progress (current total : Nat) (message : String)
  | fileComplete (filename : String) (success : Bool) (message : String)
  | logMessage (message : String)
  | allComplete (successful failed : Nat)
  deriving DecidableEq, Repr

/-- The 60-character separator line used in the log messages: the equals
sign repeated 60 times. -/
def sepLine : String := String.mk (List.replicate 60 '=')

/-- The log message emitted when cancellation is observed (line 97). -/
def cancelMsg : String := "\n⚠️  Processing cancelled by user"

/-- The argument vector handed to `subprocess.run` (line 116):
`[str(self.script_path), str(input_file), str(output_path)]`. -/
def invocationArgs (script : String) (output_folder : Option String)
    (input_file : InputFile) : List String :=
  [script, inputPathStr input_file, outputPathStr output_folder input_file]

/-- The body of one uncancelled loop iteration of `ProcessingWorker.run`
(lines 100-139): the emitted events in order, plus the increments of the
`successful` and `failed` counters. -/
def processItem (env : List String → ProcBehavior) (script : String)
    (output_folder : Option String) (total i : Nat) (input_file : InputFile) :
    List Event × Nat × Nat :=
  let pre : List Event :=
    [.progress i total ("Processing: " ++ fileName input_file),
     .logMessage ("\n" ++ sepLine),
     .logMessage ("Processing: " ++ fileName input_file),
     .logMessage ("Output: " ++ outputPathStr output_folder input_file),
     .logMessage (sepLine ++ "\n")]
  match subprocessRun (env (invocationArgs script output_folder input_file)) 600 with
  | .completed returncode out err =>
    if returncode = 0 then
      (pre ++ [.fileComplete (fileName input_file) true "Success",
               .logMessage out], 1, 0)
    else
      let error_msg := if err = "" then "Unknown error" else err
      (pre ++ [.fileComplete (fileName input_file) false error_msg,
               .logMessage ("❌ Error: " ++ error_msg)], 0, 1)
  | .timedOut =>
    (pre ++ [.fileComplete (fileName input_file) false "Timeout (>10 min)",
             .logMessage "❌ Error: Processing timeout exceeded"], 0, 1)
  | .raised m =>
    (pre ++ [.fileComplete (fileName input_file) false m,
             .logMessage ("❌ Error: " ++ m)], 0, 1)

/-- The `for i, input_file in enumerate(self.files)` loop of
`ProcessingWorker.run` (lines 95-139), from loop index `i` with current
counter values: the events emitted from this point of the loop on, and the
final counter values.  `cancel j` is the value of `self._cancelled`
observed at the top of iteration `j`. -/
def runLoop (env : List String → ProcBehavior) (cancel : Nat → Bool)
    (script : String) (output_folder : Option String) (total : Nat) :
    List InputFile → Nat → Nat → Nat → List Event × Nat × Nat
  | [], _, successful, failed => ([], successful, failed)
  | input_file :: rest, i, successful, failed =>
    if cancel i then
      ([.logMessage cancelMsg], successful, failed)
    else
      let step := processItem env script output_folder total i input_file
      let next := runLoop env cancel script output_folder total rest (i + 1)
        (successful + step.2.1) (failed + step.2.2)
      (step.1 ++ next.1, next.2.1, next.2.2)

/-- The whole of `ProcessingWorker.run` (lines 89-142): the loop, then the final
`progress(total, total, "Complete")` and `all_complete(successful, failed)`
signals, emitted whether the loop was exhausted or broke on cancellation. -/
def runWorker (env : List String → ProcBehavior) (cancel : Nat → Bool)
    (files : List InputFile) (output_folder : Option String) (script : String) :
    List Event :=
  let total := files.length
  let r := runLoop env cancel script output_folder total files 0 0 0
  r.1 ++ [.progress total total "Complete", .allComplete r.2.1 r.2.2]

/-- Whether an event is a per-item outcome notification (`file_complete`). -/
def isFileComplete : Event → Bool
  | .fileComplete _ _ _ => true
  | _ => false

/-- Number of per-item outcome notifications in an event list. -/
def countFC (evs : List Event) : Nat := (evs.filter isFileComplete).length

/-- The `(current, total)` pair of a `progress` event, if any. -/
def progressEntry : Event → Option (Nat × Nat)
  | .progress c t _ => some (c, t)
  | _ => none

/-- The `(current, total)` pairs of all `progress` events, in emission order. -/
def progressEntries (evs : List Event) : List (Nat × Nat) :=
  evs.filterMap progressEntry

/-- The `file_complete` event the code emits for a given Job Outcome. -/
def outcomeEvent (filename : String) : Outcome → Event
  | .success => .fileComplete filename true "Success"
  | .failure reason => .fileComplete filename false reason
  | .timedOut => .fileComplete filename false "Timeout (>10 min)"

/-- The method `MainWindow.add_files` (lines 411-421), restricted to its effect on the
queue `self.files_to_process`: append each incoming path not already
present, skip the ones already present. -/
def add_files (files_to_process : List String) (files : List String) : List String :=
  files.foldl
    (fun acc file_path => if file_path ∈ acc then acc else acc ++ [file_path])
    files_to_process

/-- The method `MainWindow.remove_selected` (lines 429-436), restricted to its effect
on the queue: for each selected path, remove it when present (`list.remove`
drops the first occurrence), leave the queue unchanged otherwise. -/
def remove_selected (files_to_process : List String) (selected : List String) : List String :=
  selected.foldl
    (fun acc file_path => if file_path ∈ acc then acc.erase file_path else acc)
    files_to_process

/-- The pre-run validation of `MainWindow.start_processing` (lines 447-474),
abstracted over the filesystem facts it consults: an empty queue returns
without starting; with a custom output folder that neither exists nor can
be created, the run is not started; with a missing script, the run is not
started; otherwise the worker is started on a copy of the queue with the
chosen output folder. -/
def start_processing (files : List InputFile) (useCustomOutput : Bool)
    (outputFolderText : String) (outputExists mkdirSucceeds scriptExists : Bool) :
    Option (List InputFile × Option String) :=
  if files.isEmpty then none
  else
    let output_folder : Option String :=
      if useCustomOutput then some outputFolderText else none
    if useCustomOutput && !outputExists && !mkdirSucceeds then none
    else if !scriptExists then none
    else some (files, output_folder)

/-! Queue lemmas. -/

theorem add_files_cons (q : List String) (p : String) (fs : List String) :
    add_files q (p :: fs) = add_files (if p ∈ q then q else q ++ [p]) fs := rfl

theorem mem_add_files (q fs : List String) (x : String) :
    x ∈ add_files q fs ↔ x ∈ q ∨ x ∈ fs := by
  induction fs generalizing q with
  | nil => simp [add_files]
  | cons p fs ih =>
    rw [add_files_cons]
    by_cases hp : p ∈ q
    · rw [if_pos hp, ih, List.mem_cons]
      constructor
      · rintro (h | h)
        · exact Or.inl h
        · exact Or.inr (Or.inr h)
      · rintro (h | h | h)
        · exact Or.inl h
        · exact Or.inl (h ▸ hp)
        · exact Or.inr h
    · rw [if_neg hp, ih]
      simp only [List.mem_append, List.mem_singleton, List.mem_cons]
      tauto

theorem add_files_nodup (q fs : List String) (h : q.Nodup) :
    (add_files q fs).Nodup := by
  induction fs generalizing q with
  | nil => exact h
  | cons p fs ih =>
    rw [add_files_cons]
    apply ih
    by_cases hp : p ∈ q
    · rwa [if_pos hp]
    · rw [if_neg hp]
      refine h.append (List.nodup_singleton p) ?_
      intro x hx hxp
      rw [List.mem_singleton] at hxp
      exact hp (hxp ▸ hx)

theorem add_files_extends (q fs : List String) :
    ∃ rest, add_files q fs = q ++ rest := by
  induction fs generalizing q with
  | nil => exact ⟨[], by simp [add_files]⟩
  | cons p fs ih =>
    rw [add_files_cons]
    by_cases hp : p ∈ q
    · rw [if_pos hp]; exact ih q
    · rw [if_neg hp]
      obtain ⟨rest, hr⟩ := ih (q ++ [p])
      exact ⟨p :: rest, by simp [hr]⟩

theorem remove_selected_cons (q : List String) (p : String) (sel : List String) :
    remove_selected q (p :: sel) =
      remove_selected (if p ∈ q then q.erase p else q) sel := rfl

theorem remove_selected_cons_erase (q : List String) (p : String) (sel : List String) :
    remove_selected q (p :: sel) = remove_selected (q.erase p) sel := by
  rw [remove_selected_cons]
  by_cases hp : p ∈ q
  · rw [if_pos hp]
  · rw [if_neg hp, List.erase_of_not_mem hp]

theorem mem_remove_selected (q sel : List String) (h : q.Nodup) (x : String) :
    x ∈ remove_selected q sel ↔ x ∈ q ∧ x ∉ sel := by
  induction sel generalizing q with
  | nil => simp [remove_selected]
  | cons p sel ih =>
    rw [remove_selected_cons_erase, ih (q.erase p) ((List.erase_sublist p q).nodup h),
      h.mem_erase_iff, List.mem_cons]
    tauto

/-- Claim C5: the Job Queue never contains duplicates and preserves insertion
order: re-insertion of a present path is ignored, existing entries keep their
positions (the old queue stays a prefix of the new one), and a path inserted
through `add_files` occurs in the result exactly once. -/
theorem C5_queue_nodup_insertion (q fs : List String) (h : q.Nodup) :
    (add_files q fs).Nodup
    ∧ (∃ rest, add_files q fs = q ++ rest)
    ∧ (∀ p, p ∈ q → add_files q (p :: fs) = add_files q fs)
    ∧ (∀ p, p ∈ fs → (add_files q fs).count p = 1) :=
  ⟨add_files_nodup q fs h, add_files_extends q fs,
   fun p hp => by rw [add_files_cons, if_pos hp],
   fun p hp =>
     List.count_eq_one_of_mem (add_files_nodup q fs h)
       ((mem_add_files q fs p).mpr (Or.inr hp))⟩

theorem C5_queue_nodup_insertion_witness :
    (add_files ["a"] ["b", "b"]).count "b" = 1 :=
  (C5_queue_nodup_insertion ["a"] ["b", "b"] (by decide)).2.2.2 "b" (by decide)

/-- Claim C8: removing paths that are not present leaves the queue unchanged
(contents, order and length), while on a duplicate-free queue the removal of
a selection keeps exactly the entries outside the selection. -/
theorem C8_remove_noop_or_removes (q sel : List String) :
    ((∀ p ∈ sel, p ∉ q) → remove_selected q sel = q)
    ∧ (q.Nodup → ∀ x, (x ∈ remove_selected q sel ↔ x ∈ q ∧ x ∉ sel)) := by
  constructor
  · intro h
    induction sel generalizing q with
    | nil => rfl
    | cons p sel ih =>
      rw [remove_selected_cons, if_neg (h p (List.mem_cons_self p sel))]
      exact ih q fun x hx => h x (List.mem_cons_of_mem p hx)
  · intro h x
    exact mem_remove_selected q sel h x

theorem C8_remove_noop_or_removes_witness :
    remove_selected ["a"] ["b"] = ["a"]
    ∧ ("c" ∈ remove_selected ["a", "c"] ["c"] ↔ "c" ∈ ["a", "c"] ∧ "c" ∉ ["c"]) :=
  ⟨(C8_remove_noop_or_removes ["a"] ["b"]).1 (by decide),
   (C8_remove_noop_or_removes ["a", "c"] ["c"]).2 (by decide) "c"⟩

/-! Per-item lemmas about the loop body. -/

theorem countFC_append (a b : List Event) :
    countFC (a ++ b) = countFC a + countFC b := by
  simp [countFC, List.filter_append]

theorem progressEntries_append (a b : List Event) :
    progressEntries (a ++ b) = progressEntries a ++ progressEntries b := by
  simp [progressEntries, List.filterMap_append]

theorem processItem_countFC (env : List String → ProcBehavior) (script : String)
    (o : Option String) (total i : Nat) (g : InputFile) :
    countFC (processItem env script o total i g).1 = 1 := by
  unfold processItem
  rcases hr : subprocessRun (env (invocationArgs script o g)) 600 with ⟨rc, out, err⟩ | _ | m
  · by_cases h0 : rc = 0 <;> simp [hr, h0, countFC, isFileComplete]
  · simp [hr, countFC, isFileComplete]
  · simp [hr, countFC, isFileComplete]

theorem processItem_delta (env : List String → ProcBehavior) (script : String)
    (o : Option String) (total i : Nat) (g : InputFile) :
    (processItem env script o total i g).2.1 + (processItem env script o total i g).2.2 = 1 := by
  unfold processItem
  rcases hr : subprocessRun (env (invocationArgs script o g)) 600 with ⟨rc, out, err⟩ | _ | m
  · by_cases h0 : rc = 0 <;> simp [hr, h0]
  · simp [hr]
  · simp [hr]

theorem processItem_progressEntries (env : List String → ProcBehavior) (script : String)
    (o : Option String) (total i : Nat) (g : InputFile) :
    progressEntries (processItem env script o total i g).1 = [(i, total)] := by
  unfold processItem
  rcases hr : subprocessRun (env (invocationArgs script o g)) 600 with ⟨rc, out, err⟩ | _ | m
  · by_cases h0 : rc = 0 <;> simp [hr, h0, progressEntries, progressEntry]
  · simp [hr, progressEntries, progressEntry]
  · simp [hr, progressEntries, progressEntry]

theorem processItem_fileCompletes (env : List String → ProcBehavior) (script : String)
    (o : Option String) (total i : Nat) (g : InputFile) :
    (processItem env script o total i g).1.filter isFileComplete =
      [outcomeEvent (fileName g) (classify (env (invocationArgs script o g)))] := by
  unfold processItem classify
  rcases hr : subprocessRun (env (invocationArgs script o g)) 600 with ⟨rc, out, err⟩ | _ | m
  · by_cases h0 : rc = 0 <;> simp [hr, h0, isFileComplete, outcomeEvent]
  · simp [hr, isFileComplete, outcomeEvent]
  · simp [hr, isFileComplete, outcomeEvent]

/-! Loop-level lemmas. -/

theorem runLoop_sum (env : List String → ProcBehavior) (cancel : Nat → Bool)
    (script : String) (o : Option String) (total : Nat) :
    ∀ (files : List InputFile) (i s f : Nat),
      (runLoop env cancel script o total files i s f).2.1 +
        (runLoop env cancel script o total files i s f).2.2 =
      s + f + countFC (runLoop env cancel script o total files i s f).1 := by
  intro files
  induction files with
  | nil => intro i s f; simp [runLoop, countFC]
  | cons g rest ih =>
    intro i s f
    by_cases hc : cancel i = true
    · simp [runLoop, hc, countFC, isFileComplete]
    · have hdelta := processItem_delta env script o total i g
      have hstep := processItem_countFC env script o total i g
      have hih := ih (i + 1) (s + (processItem env script o total i g).2.1)
        (f + (processItem env script o total i g).2.2)
      simp only [runLoop, hc, if_false, Bool.false_eq_true, if_neg, countFC_append] at *
      omega

theorem runLoop_countFC_cancel (env : List String → ProcBehavior) (cancel : Nat → Bool)
    (script : String) (o : Option String) (total : Nat) :
    ∀ (files : List InputFile) (k i s f : Nat), k ≤ files.length →
      (∀ j, j < k → cancel (i + j) = false) →
      (k < files.length → cancel (i + k) = true) →
      countFC (runLoop env cancel script o total files i s f).1 = k := by
  intro files
  induction files with
  | nil =>
    intro k i s f hk _ _
    have : k = 0 := Nat.le_zero.mp hk
    subst this
    simp [runLoop, countFC]
  | cons g rest ih =>
    intro k i s f hk hbelow hat
    cases k with
    | zero =>
      have hc : cancel i = true := by
        have := hat (by simp)
        simpa using this
      simp [runLoop, hc, countFC, isFileComplete]
    | succ k =>
      have hc : cancel i = false := by
        have := hbelow 0 (Nat.succ_pos k)
        simpa using this
      have hrest := ih k (i + 1) (s + (processItem env script o total i g).2.1)
        (f + (processItem env script o total i g).2.2)
        (by simpa using hk)
        (fun j hj => by
          rw [show i + 1 + j = i + (j + 1) from by omega]
          exact hbelow (j + 1) (by omega))
        (fun hlt => by
          rw [show i + 1 + k = i + (k + 1) from by omega]
          exact hat (by simpa using Nat.succ_lt_succ hlt))
      simp only [runLoop, hc, Bool.false_eq_true, if_false, countFC_append,
        processItem_countFC]
      omega

theorem runLoop_countFC_env (env env₁ : List String → ProcBehavior) (cancel : Nat → Bool)
    (script : String) (o : Option String) (total : Nat) :
    ∀ (files : List InputFile) (i s₁ f₁ s₂ f₂ : Nat),
      countFC (runLoop env cancel script o total files i s₁ f₁).1 =
      countFC (runLoop env₁ cancel script o total files i s₂ f₂).1 := by
  intro files
  induction files with
  | nil => intro i s₁ f₁ s₂ f₂; rfl
  | cons g rest ih =>
    intro i s₁ f₁ s₂ f₂
    by_cases hc : cancel i = true
    · simp [runLoop, hc]
    · simp only [runLoop, hc, Bool.false_eq_true, if_false, countFC_append,
        processItem_countFC]
      rw [ih]

theorem runLoop_progress_nocancel (env : List String → ProcBehavior) (cancel : Nat → Bool)
    (script : String) (o : Option String) (total : Nat) :
    ∀ (files : List InputFile) (i s f : Nat),
      (∀ j, j < files.length → cancel (i + j) = false) →
      progressEntries (runLoop env cancel script o total files i s f).1 =
        (List.range files.length).map (fun j => (i + j, total)) := by
  intro files
  induction files with
  | nil => intro i s f _; simp [runLoop, progressEntries]
  | cons g rest ih =>
    intro i s f h
    have hc : cancel i = false := by
      have := h 0 (Nat.succ_pos rest.length)
      simpa using this
    have hrest := ih (i + 1) (s + (processItem env script o total i g).2.1)
      (f + (processItem env script o total i g).2.2)
      (fun j hj => by
        rw [show i + 1 + j = i + (j + 1) from by omega]
        exact h (j + 1) (by simpa using Nat.succ_lt_succ hj))
    simp only [runLoop, hc, Bool.false_eq_true, if_false, progressEntries_append,
      processItem_progressEntries, hrest, List.length_cons, List.range_succ_eq_map,
      List.map_cons, List.map_map]
    rw [List.singleton_append]
    congr 1
    apply List.map_congr_left
    intro j hj
    simp only [Function.comp_apply, Prod.mk.injEq]
    exact ⟨by omega, trivial⟩

theorem countFC_runWorker (env : List String → ProcBehavior) (cancel : Nat → Bool)
    (files : List InputFile) (o : Option String) (script : String) :
    countFC (runWorker env cancel files o script) =
      countFC (runLoop env cancel script o files.length files 0 0 0).1 := by
  have hsplit : runWorker env cancel files o script =
      (runLoop env cancel script o files.length files 0 0 0).1 ++
        [Event.progress files.length files.length "Complete",
         Event.allComplete (runLoop env cancel script o files.length files 0 0 0).2.1
           (runLoop env cancel script o files.length files 0 0 0).2.2] := rfl
  rw [hsplit, countFC_append]
  simp [countFC, isFileComplete]

/-! Concrete fixtures used by the witness theorems. -/

/-- A subprocess environment whose every invocation exits 0 immediately. -/
def envConstOk : List String → ProcBehavior := fun _ => ⟨none, 0, 0, "", ""⟩

/-- A subprocess environment whose every invocation exits 1 without delay. -/
def envConstFail : List String → ProcBehavior := fun _ => ⟨none, 0, 1, "", "bad codec"⟩

/-- A subprocess environment whose every invocation runs for 601 seconds. -/
def envTimeout : List String → ProcBehavior := fun _ => ⟨none, 601, 0, "", ""⟩

/-- A cancellation flag that is never observed set. -/
def cancelNever : Nat → Bool := fun _ => false

/-- A cancellation flag observed set from the second loop iteration on. -/
def cancelFromOne : Nat → Bool := fun j => decide (1 ≤ j)

/-- A sample input file. -/
def fileA : InputFile := ⟨"/tmp", "a", ".wav"⟩

/-- A second sample input file. -/
def fileB : InputFile := ⟨"/tmp", "b", ".mp3"⟩

/-- A third sample input file. -/
def fileC : InputFile := ⟨"/tmp", "c", ".ogg"⟩

/-- Claim C1: when the cancellation flag is first observed set at the top of
the loop before invoking item `k` (1-indexed), the run stops immediately: the
final `all_complete` counts satisfy `successful + failed = k - 1`, and only
the first `k - 1` items emit a per-item outcome notification (items `k..N`
emit none). -/
theorem C1_cancellation_stops_run (env : List String → ProcBehavior)
    (cancel : Nat → Bool) (files : List InputFile) (o : Option String)
    (script : String) (k : Nat) (hk1 : 1 ≤ k) (hkN : k ≤ files.length)
    (hbefore : ∀ j, j < k - 1 → cancel j = false)
    (hat : cancel (k - 1) = true) :
    ∃ body s f,
      runWorker env cancel files o script =
        body ++ [Event.progress files.length files.length "Complete",
                 Event.allComplete s f]
      ∧ s + f = k - 1
      ∧ countFC (runWorker env cancel files o script) = k - 1 := by
  have hcount := runLoop_countFC_cancel env cancel script o files.length files
    (k - 1) 0 0 0 (by omega)
    (fun j hj => by simpa using hbefore j hj)
    (fun _ => by simpa using hat)
  have hsum := runLoop_sum env cancel script o files.length files 0 0 0
  refine ⟨(runLoop env cancel script o files.length files 0 0 0).1,
    (runLoop env cancel script o files.length files 0 0 0).2.1,
    (runLoop env cancel script o files.length files 0 0 0).2.2, rfl, ?_, ?_⟩
  · omega
  · rw [countFC_runWorker]
    exact hcount

theorem C1_cancellation_stops_run_witness :
    countFC (runWorker envConstOk cancelFromOne [fileA, fileB, fileC] none "sc") = 1 := by
  obtain ⟨body, s, f, h1, h2, h3⟩ :=
    C1_cancellation_stops_run envConstOk cancelFromOne [fileA, fileB, fileC] none "sc" 2
      (by decide) (by decide)
      (fun j hj => by
        have hj0 : j = 0 := by omega
        subst hj0
        rfl)
      rfl
  exact h3

/-- Claim C2: per-item outcome classification: exit status 0 gives Success;
a non-zero exit gives Failure carrying the stderr text, or the text
Unknown error when stderr is empty; a duration beyond the 600-second
timeout gives the distinct TimedOut outcome whatever the exit code would
have been; any other exception gives Failure carrying its description.  The
single `file_complete` signal of each attempted item carries exactly the
classified outcome. -/
theorem C2_outcome_classification (b : ProcBehavior) :
    (b.raises = none → b.duration ≤ 600 → b.exitCode = 0 →
        classify b = Outcome.success)
    ∧ (b.raises = none → b.duration ≤ 600 → b.exitCode ≠ 0 →
        classify b = Outcome.failure
          (if b.stderrText = "" then "Unknown error" else b.stderrText))
    ∧ (b.raises = none → 600 < b.duration → classify b = Outcome.timedOut)
    ∧ (∀ m, b.raises = some m → classify b = Outcome.failure m)
    ∧ (∀ env script o total i g,
        env (invocationArgs script o g) = b →
        (processItem env script o total i g).1.filter isFileComplete =
          [outcomeEvent (fileName g) (classify b)]) := by
  refine ⟨?_, ?_, ?_, ?_, ?_⟩
  · intro hr hd he
    simp [classify, subprocessRun, hr, Nat.not_lt.mpr hd, he]
  · intro hr hd he
    simp [classify, subprocessRun, hr, Nat.not_lt.mpr hd, he]
  · intro hr hd
    simp [classify, subprocessRun, hr, hd]
  · intro m hr
    simp [classify, subprocessRun, hr]
  · intro env script o total i g hb
    rw [← hb]
    exact processItem_fileCompletes env script o total i g

theorem C2_outcome_classification_witness :
    classify ⟨none, 601, 0, "", ""⟩ = Outcome.timedOut :=
  (C2_outcome_classification ⟨none, 601, 0, "", ""⟩).2.2.1 rfl (by decide)

/-- Claim C3: the output path is the input stem concatenated with
`_processed.mp3`, in the configured output directory when one is set and in
the input file's own directory otherwise; the external process is invoked
with exactly the resolved input path and this resolved output path as its
two positional arguments, so an item's whole behaviour depends only on the
environment's answer at that exact argument vector. -/
theorem C3_output_path_and_invocation (env₁ env₂ : List String → ProcBehavior)
    (script : String) (o : Option String) (total i : Nat) (g : InputFile)
    (h : env₁ (invocationArgs script o g) = env₂ (invocationArgs script o g)) :
    processItem env₁ script o total i g = processItem env₂ script o total i g
    ∧ outputPathStr o g = specOutputPath o g
    ∧ invocationArgs script o g = [script, inputPathStr g, outputPathStr o g] := by
  refine ⟨?_, ?_, rfl⟩
  · unfold processItem
    rw [h]
  · cases o <;> rfl

theorem C3_output_path_and_invocation_witness :
    outputPathStr none fileA = specOutputPath none fileA :=
  (C3_output_path_and_invocation envConstOk envConstOk "sc" none 1 0 fileA rfl).2.1

/-- Claim C4: after the loop ends, exhausted or cancelled, the worker emits a
final progress signal at `(total, total)` with `total` the full snapshot
length, followed by the aggregate `all_complete(successful, failed)` signal,
and those counts cover exactly the items actually attempted (one
`file_complete` signal each). -/
theorem C4_final_notifications (env : List String → ProcBehavior)
    (cancel : Nat → Bool) (files : List InputFile) (o : Option String)
    (script : String) :
    ∃ body s f,
      runWorker env cancel files o script =
        body ++ [Event.progress files.length files.length "Complete",
                 Event.allComplete s f]
      ∧ s + f = countFC body := by
  refine ⟨(runLoop env cancel script o files.length files 0 0 0).1,
    (runLoop env cancel script o files.length files 0 0 0).2.1,
    (runLoop env cancel script o files.length files 0 0 0).2.2, rfl, ?_⟩
  have := runLoop_sum env cancel script o files.length files 0 0 0
  simpa using this

/-- Claim C6: per-item failures never abort the batch: the number of items
attempted does not depend on the subprocess outcomes at all, and with no
cancellation every item of the snapshot is attempted; the only condition
that prevents any item from running is pre-run validation failure (missing
script, or an unusable custom output folder), which stops the run before it
starts. -/
theorem C6_failures_never_abort (env env₁ : List String → ProcBehavior)
    (cancel : Nat → Bool) (files : List InputFile) (o : Option String)
    (script : String) (useCustomOutput : Bool) (txt : String)
    (outputExists mkdirSucceeds scriptExists : Bool) :
    countFC (runWorker env cancel files o script) =
        countFC (runWorker env₁ cancel files o script)
    ∧ ((∀ j, cancel j = false) →
        countFC (runWorker env cancel files o script) = files.length)
    ∧ (scriptExists = false →
        start_processing files useCustomOutput txt outputExists mkdirSucceeds
          scriptExists = none)
    ∧ (useCustomOutput = true → outputExists = false → mkdirSucceeds = false →
        start_processing files useCustomOutput txt outputExists mkdirSucceeds
          scriptExists = none) := by
  refine ⟨?_, ?_, ?_, ?_⟩
  · rw [countFC_runWorker, countFC_runWorker]
    exact runLoop_countFC_env env env₁ cancel script o files.length files 0 0 0 0 0
  · intro h
    rw [countFC_runWorker]
    exact runLoop_countFC_cancel env cancel script o files.length files
      files.length 0 0 0 le_rfl (fun j _ => h (0 + j))
      (fun hlt => absurd hlt (lt_irrefl _))
  · intro h
    subst h
    simp [start_processing, ite_self]
  · intro h1 h2 h3
    subst h1; subst h2; subst h3
    simp [start_processing, ite_self]

theorem C6_failures_never_abort_witness :
    countFC (runWorker envConstFail cancelNever [fileA, fileB] none "sc") = 2 :=
  (C6_failures_never_abort envConstFail envConstOk cancelNever [fileA, fileB]
    none "sc" true "t" false false false).2.1 (fun _ => rfl)

/-- Claim C7: a run over an empty snapshot consults no subprocess behaviour
and emits exactly the final progress signal at `(0, 0)` and the summary
signal with zero successful and zero failed items. -/
theorem C7_empty_snapshot (env : List String → ProcBehavior) (cancel : Nat → Bool)
    (o : Option String) (script : String) :
    runWorker env cancel [] o script =
      [Event.progress 0 0 "Complete", Event.allComplete 0 0] := rfl

/-- Claim C9: every attempted item increments exactly one of the two
counters; a timed-out or failed (including unexpected-fault) outcome
increments the failed counter; hence the final counts always satisfy
`successful + failed = number of items attempted`. -/
theorem C9_counters_partition (env : List String → ProcBehavior)
    (cancel : Nat → Bool) (script : String) (o : Option String) (total i : Nat)
    (g : InputFile) (files : List InputFile) :
    (processItem env script o total i g).2.1 +
        (processItem env script o total i g).2.2 = 1
    ∧ (classify (env (invocationArgs script o g)) = Outcome.timedOut →
        (processItem env script o total i g).2.2 = 1)
    ∧ (∀ m, classify (env (invocationArgs script o g)) = Outcome.failure m →
        (processItem env script o total i g).2.2 = 1)
    ∧ ((runLoop env cancel script o total files i 0 0).2.1 +
         (runLoop env cancel script o total files i 0 0).2.2 =
       countFC (runLoop env cancel script o total files i 0 0).1) := by
  refine ⟨processItem_delta env script o total i g, ?_, ?_, ?_⟩
  · intro ht
    unfold processItem
    rcases hr : subprocessRun (env (invocationArgs script o g)) 600 with
      ⟨rc, out, err⟩ | _ | m
    · exfalso
      by_cases h0 : rc = 0 <;> simp [classify, hr, h0] at ht
    · simp [hr]
    · exfalso
      simp [classify, hr] at ht
  · intro m hm
    unfold processItem
    rcases hr : subprocessRun (env (invocationArgs script o g)) 600 with
      ⟨rc, out, err⟩ | _ | m₁
    · by_cases h0 : rc = 0
      · exfalso
        simp [classify, hr, h0] at hm
      · simp [hr, h0]
    · exfalso
      simp [classify, hr] at hm
    · simp [hr]
  · have := runLoop_sum env cancel script o total files i 0 0
    simpa using this

theorem C9_counters_partition_witness :
    (processItem envTimeout "sc" none 1 0 fileA).2.2 = 1 :=
  (C9_counters_partition envTimeout cancelNever "sc" none 1 0 fileA []).2.1
    (by decide)

/-- Claim C10: progress indices are zero-based and strictly increasing: an
uncancelled run over `N` items emits progress entries `(0, N)` through
`(N - 1, N)` in order, one before each attempted item, followed by the final
entry `(N, N)`. -/
theorem C10_progress_indices (env : List String → ProcBehavior)
    (cancel : Nat → Bool) (files : List InputFile) (o : Option String)
    (script : String) (h : ∀ j, cancel j = false) :
    progressEntries (runWorker env cancel files o script) =
      (List.range (files.length + 1)).map (fun j => (j, files.length)) := by
  have hbody := runLoop_progress_nocancel env cancel script o files.length files
    0 0 0 (fun j _ => h (0 + j))
  have hsplit : runWorker env cancel files o script =
      (runLoop env cancel script o files.length files 0 0 0).1 ++
        [Event.progress files.length files.length "Complete",
         Event.allComplete (runLoop env cancel script o files.length files 0 0 0).2.1
           (runLoop env cancel script o files.length files 0 0 0).2.2] := rfl
  rw [hsplit, progressEntries_append, hbody, List.range_succ, List.map_append]
  congr 1
  apply List.map_congr_left
  intro j _
  simp

theorem C10_progress_indices_witness :
    progressEntries (runWorker envConstOk cancelNever [fileA, fileB] none "sc") =
      [(0, 2), (1, 2), (2, 2)] := by
  rw [C10_progress_indices envConstOk cancelNever [fileA, fileB] none "sc"
    (fun j => rfl)]
  rfl
